import Mathlib

/-!
Verification of the contact-directory core of `hw01.py`: the data model
(phone numbers, birthdays, records, address book) and the birthday-window
computation, shallowly embedded in Lean.  Python dates are modelled as
triples of naturals compared lexicographically; exceptions are modelled
with `Option`/`Except`; mutating methods are modelled as state-passing
functions returning the outcome together with the post-state.
-/

/-- Error kinds signalled by the core.  `invalidFormat` stands for the
`ValueError`s raised for a malformed phone number or date string
("Phone must contain exactly 10 digits.", "New phone must contain exactly
10 digits.", "Invalid date format. Use DD.MM.YYYY"); `notFound` stands for
`ValueError("Phone not found")`. -/
inductive Err where
  | invalidFormat
  | notFound
deriving DecidableEq, Repr

/-- Model of Python `datetime.date`: a year-month-day triple.  Python
guarantees its dates are valid calendar dates; here validity is tracked by
the predicate `validDate` where the code can raise. -/
structure Date where
  year : Nat
  month : Nat
  day : Nat
deriving DecidableEq, Repr

/-- Gregorian leap-year rule, as implemented by Python's `datetime`. -/
def isLeapYear (y : Nat) : Bool :=
  decide (y % 4 = 0 ∧ (y % 100 ≠ 0 ∨ y % 400 = 0))

/-- Number of days in a month, as implemented by Python's `datetime`. -/
def daysInMonth (y m : Nat) : Nat :=
  if m = 2 then (if isLeapYear y then 29 else 28)
  else if m = 4 ∨ m = 6 ∨ m = 9 ∨ m = 11 then 30 else 31

/-- Validity of a year-month-day triple as a Python `datetime.date`
(Python restricts years to 1..9999). -/
def validDate (y m d : Nat) : Bool :=
  decide (1 ≤ y ∧ y ≤ 9999 ∧ 1 ≤ m ∧ m ≤ 12 ∧ 1 ≤ d ∧ d ≤ daysInMonth y m)

/-- Python `date` comparison `a <= b` (lexicographic on year, month, day). -/
def dateLe (a b : Date) : Bool :=
  decide (a.year < b.year ∨ (a.year = b.year ∧
    (a.month < b.month ∨ (a.month = b.month ∧ a.day ≤ b.day))))

/-- Python `date` comparison `a < b` (lexicographic on year, month, day). -/
def dateLt (a b : Date) : Bool :=
  decide (a.year < b.year ∨ (a.year = b.year ∧
    (a.month < b.month ∨ (a.month = b.month ∧ a.day < b.day))))

/-- Model of `d.replace(year := y)`: returns `none` exactly when Python's
`date.replace` raises (the result is not a valid calendar date, e.g.
February 29 replaced into a non-leap year). -/
def replaceYear (d : Date) (y : Nat) : Option Date :=
  if validDate y d.month d.day then some ⟨y, d.month, d.day⟩ else none

/-- Model of `is_valid_date(birthday, start, end)` from `hw01.py`:
reinterpret the birthday in `start`'s year, re-adjust to `stop`'s year when
it already passed and the window crosses a year boundary, and test
membership in `[start, stop]`.  `none` models a `ValueError` escaping from
`date.replace`. -/
def is_valid_date (birthday start stop : Date) : Option Bool :=
  (replaceYear birthday start.year).bind (fun a =>
    (if dateLt a start && !(a.year == stop.year)
     then replaceYear a stop.year else some a).bind (fun a2 =>
      some (dateLe start a2 && dateLe a2 stop)))

/-- The adjusted date computed inside `is_valid_date` (total companion of
the partial adjustment: the date whose membership in the window is
tested, on inputs where no exception is raised). -/
def adjustBirthday (b start stop : Date) : Date :=
  let a : Date := ⟨start.year, b.month, b.day⟩
  if dateLt a start && !(a.year == stop.year) then ⟨stop.year, b.month, b.day⟩ else a

/-- Successor day in the Gregorian calendar, used to model
`timedelta(days := n)` addition. -/
def nextDay (d : Date) : Date :=
  if d.day < daysInMonth d.year d.month then ⟨d.year, d.month, d.day + 1⟩
  else if d.month < 12 then ⟨d.year, d.month + 1, 1⟩
  else ⟨d.year + 1, 1, 1⟩

/-- Model of Python `d + timedelta(days := n)` for valid dates. -/
def addDays (d : Date) : Nat → Date
  | 0 => d
  | n + 1 => addDays (nextDay d) n

/-- Decimal digit character (code point between `'0'` and `'9'`), the
characters matched by the digit patterns of `re` and `strptime` on the
ASCII range. -/
def isDigitChar (c : Char) : Bool :=
  decide (48 ≤ c.toNat ∧ c.toNat ≤ 57)

/-- Numeric value of a list of decimal digit characters (most significant
first). -/
def digitsVal (cs : List Char) : Nat :=
  cs.foldl (fun n c => 10 * n + (c.toNat - 48)) 0

/-- Splitting a character list at every `'.'` (like `str.split(".")`). -/
def splitDots : List Char → List (List Char)
  | [] => [[]]
  | c :: cs =>
    if c = '.' then [] :: splitDots cs
    else
      match splitDots cs with
      | [] => [[c]]
      | p :: ps => (c :: p) :: ps

/-- Inverse of `splitDots`: interleave the parts with `'.'`. -/
def joinDots : List (List Char) → List Char
  | [] => []
  | [a] => a
  | a :: rest => a ++ '.' :: joinDots rest

/-- Model of `datetime.strptime(s, "%d.%m.%Y").date()`: `%d` matches one
or two digits valued 1..31, `%m` one or two digits valued 1..12, `%Y`
exactly four digits, separated by literal dots covering the whole string;
the matched numbers must then form a valid calendar date or `strptime`
raises `ValueError`. -/
def parseDMY (cs : List Char) : Option Date :=
  match splitDots cs with
  | [ds, ms, ys] =>
    if (1 ≤ ds.length ∧ ds.length ≤ 2) ∧ ds.all  isDigitChar = true
        ∧ 1 ≤ digitsVal ds ∧ digitsVal ds ≤ 31
        ∧ (1 ≤ ms.length ∧ ms.length ≤ 2) ∧ ms.all  isDigitChar = true
        ∧ 1 ≤ digitsVal ms ∧ digitsVal ms ≤ 12
        ∧ ys.length = 4 ∧ ys.all  isDigitChar = true
        ∧ validDate (digitsVal ys) (digitsVal ms) (digitsVal ds) = true
    then some ⟨digitsVal ys, digitsVal ms, digitsVal ds⟩
    else none
  | _ => none

/-- Zero-padded two-digit decimal rendering (`strftime` `%d`, `%m`). -/
def pad2 (n : Nat) : List Char :=
  [Nat.digitChar (n / 10 % 10), Nat.digitChar (n % 10)]

/-- Four-digit decimal rendering of a number in `1000..9999` (the year
digits printed by `strftime` `%Y` when no padding is needed). -/
def pad4 (n : Nat) : List Char :=
  [Nat.digitChar (n / 1000 % 10), Nat.digitChar (n / 100 % 10),
   Nat.digitChar (n / 10 % 10), Nat.digitChar (n % 10)]

/-- Rendering of a year `1..9999` by `strftime` `%Y`: CPython delegates
to the C library's `strftime`, which prints the year as a plain decimal
number without zero-padding (year 990 prints as `"990"`, not `"0990"`),
so years below 1000 come out with fewer than four digits. -/
def padY (n : Nat) : List Char :=
  if n < 10 then [Nat.digitChar (n % 10)]
  else if n < 100 then [Nat.digitChar (n / 10 % 10), Nat.digitChar (n % 10)]
  else if n < 1000 then
    [Nat.digitChar (n / 100 % 10), Nat.digitChar (n / 10 % 10), Nat.digitChar (n % 10)]
  else pad4 n

/-- Model of `d.strftime("%d.%m.%Y")` for the year range `1..9999` that a
Python `date` can hold: two-digit zero-padded day and month, unpadded
year. -/
def formatDMY (d : Date) : String :=
  ⟨pad2 d.day ++ '.' :: pad2 d.month ++ '.' :: padY d.year⟩

/-- Spec-side characterization (from the spec's words, for comparison):
a string written with a two-digit day, two-digit month and four-digit
year separated by dots that denotes a valid calendar date. -/
def specDateFormat (s : String) : Bool :=
  match s.data with
  | [d1, d0, p, m1, m0, q, y3, y2, y1, y0] =>
    decide (p = '.') && decide (q = '.')
      && ([d1, d0, m1, m0, y3, y2, y1, y0].all isDigitChar)
      && validDate (digitsVal [y3, y2, y1, y0]) (digitsVal [m1, m0]) (digitsVal [d1, d0])
  | _ => false

/-- Amended spec-side characterization of the dates `strptime` accepts
with format `"%d.%m.%Y"`: a valid calendar date written with a one- or
two-digit day, a one- or two-digit month and an exactly four-digit year,
separated by dots. -/
def looseDateFormat (s : String) : Prop :=
  ∃ ds ms ys : List Char,
    s.data = ds ++ '.' :: (ms ++ '.' :: ys) ∧
    (1 ≤ ds.length ∧ ds.length ≤ 2) ∧ (∀ c ∈ ds, isDigitChar c = true) ∧
    (1 ≤ ms.length ∧ ms.length ≤ 2) ∧ (∀ c ∈ ms, isDigitChar c = true) ∧
    ys.length = 4 ∧ (∀ c ∈ ys, isDigitChar c = true) ∧
    validDate (digitsVal ys) (digitsVal ms) (digitsVal ds) = true

/-- Model of `Phone.validate`: `re.fullmatch(r"\d{10}", phone)`, i.e. the
string consists of exactly 10 decimal digits. -/
def Phone.validate (s : String) : Bool :=
  decide (s.data.length = 10) && s.data.all isDigitChar

/-- Model of `Phone.__init__`: keeps the raw string when valid, raises
`invalidFormat` otherwise. -/
def Phone.mk? (s : String) : Except Err String :=
  if Phone.validate s then .ok s else .error .invalidFormat

/-- Model of `Birthday.__init__`: parse with `strptime("%d.%m.%Y")`,
raising `invalidFormat` when parsing fails. -/
def Birthday.mk? (s : String) : Except Err Date :=
  match parseDMY s.data with
  | some d => .ok d
  | none => .error .invalidFormat

/-- Model of a `Record`: a name (the `Name` field performs no validation,
so it is the raw string), the ordered list of stored phone values, and an
optional birthday date. -/
structure Record where
  name : String
  phones : List String
  birthday : Option Date
deriving DecidableEq, Repr

/-- Model of `Record.__init__(name)`. -/
def Record.init (name : String) : Record :=
  ⟨name, [], none⟩

/-- Model of `Record.add_phone`: validate (raising before any mutation),
then append.  The returned pair is (outcome, post-state). -/
def Record.add_phone (r : Record) (phone : String) : Except Err Unit × Record :=
  match Phone.mk? phone with
  | .error e => (.error e, r)
  | .ok p => (.ok (), { r with phones := r.phones ++ [p] })

/-- Index of the first stored phone equal to `phone` (the object that
`Record.find_phone`'s loop returns). -/
def findFirst (phones : List String) (phone : String) : Option Nat :=
  match phones with
  | [] => none
  | p :: rest =>
    if p = phone then some 0 else (findFirst rest phone).map (· + 1)

/-- Model of `Record.edit_phone`: locate the first matching phone
(raising `notFound` if absent), validate the replacement (raising
`invalidFormat`), then overwrite the located entry in place. -/
def Record.edit_phone (r : Record) (old new : String) : Except Err Unit × Record :=
  match findFirst r.phones old with
  | none => (.error .notFound, r)
  | some i =>
    if Phone.validate new
    then (.ok (), { r with phones := r.phones.set i new })
    else (.error .invalidFormat, r)

/-- Model of `Record.add_birthday`: parse (raising before any mutation),
then overwrite the stored birthday. -/
def Record.add_birthday (r : Record) (s : String) : Except Err Unit × Record :=
  match Birthday.mk? s with
  | .error e => (.error e, r)
  | .ok d => (.ok (), { r with birthday := some d })

/-- Model of `AddressBook`'s underlying dict: an insertion-ordered
association list with unique keys. -/
abbrev AddressBook := List (String × Record)

/-- Model of `self.data[k] = v` on an insertion-ordered dict: overwrite in
place if the key exists, else append. -/
def dictSet : AddressBook → String → Record → AddressBook
  | [], k, v => [(k, v)]
  | (k', v') :: rest, k, v =>
    if k' = k then (k, v) :: rest else (k', v') :: dictSet rest k v

/-- Model of `AddressBook.add_record`. -/
def AddressBook.add_record (book : AddressBook) (r : Record) : AddressBook :=
  dictSet book r.name r

/-- Model of `AddressBook.find` (`dict.get`). -/
def AddressBook.find : AddressBook → String → Option Record
  | [], _ => none
  | (k, v) :: rest, n => if k = n then some v else AddressBook.find rest n

/-- Model of `AddressBook.delete`. -/
def AddressBook.delete : AddressBook → String → AddressBook
  | [], _ => []
  | (k, v) :: rest, n =>
    if k = n then rest else (k, v) :: AddressBook.delete rest n

/-- The record-scanning loop of `AddressBook.birthdays`: collect
`(name, birthday)` for every record whose birthday passes
`is_valid_date`, in iteration order; `none` models a `ValueError`
escaping from `is_valid_date`. -/
def AddressBook.collect : AddressBook → Date → Date → Option (List (String × Date))
  | [], _, _ => some []
  | (_, rec) :: rest, today, fut =>
    match rec.birthday with
    | none => AddressBook.collect rest today fut
    | some b =>
      match is_valid_date b today fut with
      | none => none
      | some true => (AddressBook.collect rest today fut).map (fun l => (rec.name, b) :: l)
      | some false => AddressBook.collect rest today fut

/-- Stable insertion of an entry into a list sorted ascending by the date
component: the new entry goes after every existing entry whose date is
not greater. -/
def insertSorted (x : String × Date) : List (String × Date) → List (String × Date)
  | [] => [x]
  | y :: ys => if dateLt x.2 y.2 then x :: y :: ys else y :: insertSorted x ys

/-- Model of `result.sort(key := lambda item: item[1])`: a stable sort by
the date component (Python's sort is stable; any stable sort by the same
key computes the same list). -/
def sortByDate (l : List (String × Date)) : List (String × Date) :=
  l.foldl (fun acc x => insertSorted x acc) []

/-- Model of `AddressBook.birthdays`, parametrized by `today` (the source
reads the clock); the window end is `today + timedelta(days := 7)`.  The
returned pair is (outcome, post-state of the book). -/
def AddressBook.birthdays (book : AddressBook) (today : Date) :
    Option (List (String × Date)) × AddressBook :=
  ((AddressBook.collect book today (addDays today 7)).map sortByDate, book)

/-! ## Basic lemmas about the directory mapping -/

theorem find_dictSet_self (book : AddressBook) (k : String) (v : Record) :
    AddressBook.find (dictSet book k v) k = some v := by
  induction book with
  | nil => simp [dictSet, AddressBook.find]
  | cons hd tl ih =>
    obtain ⟨k', v'⟩ := hd
    by_cases h : k' = k
    · simp [dictSet, h, AddressBook.find]
    · simp [dictSet, h, AddressBook.find, ih]

theorem dictSet_dictSet (book : AddressBook) (k : String) (v1 v2 : Record) :
    dictSet (dictSet book k v1) k v2 = dictSet book k v2 := by
  induction book with
  | nil => simp [dictSet]
  | cons hd tl ih =>
    obtain ⟨k', v'⟩ := hd
    by_cases h : k' = k
    · simp [dictSet, h]
    · simp [dictSet, h, ih]

/-! ## Lemmas about phone lookup -/

theorem Phone.validate_iff (s : String) :
    Phone.validate s = true ↔ (s.data.length = 10 ∧ ∀ c ∈ s.data, isDigitChar c = true) := by
  simp [Phone.validate, List.all_eq_true]

theorem findFirst_eq_none {l : List String} {x : String} :
    findFirst l x = none ↔ x ∉ l := by
  induction l with
  | nil => simp [findFirst]
  | cons p rest ih =>
    by_cases h : p = x
    · subst h
      simp [findFirst]
    · simp [findFirst, h, ih, Ne.symm h]

theorem findFirst_eq_some {l : List String} {x : String} {i : Nat}
    (hf : findFirst l x = some i) :
    ∃ h : i < l.length, l.get ⟨i, h⟩ = x ∧ x ∉ l.take i := by
  induction l generalizing i with
  | nil => simp [findFirst] at hf
  | cons p rest ih =>
    by_cases h : p = x
    · subst h
      simp [findFirst] at hf
      subst hf
      exact ⟨by simp, by simp, by simp⟩
    · simp [findFirst, h, Option.map_eq_some'] at hf
      obtain ⟨j, hj, hji⟩ := hf
      subst hji
      obtain ⟨hlt, hget, hnotin⟩ := ih hj
      refine ⟨by simpa using Nat.succ_lt_succ hlt, by simpa using hget, ?_⟩
      simp [List.take_succ_cons, Ne.symm h]
      exact hnotin

/-! ## Claims about record and directory operations -/

/-- C9: the upcoming-birthdays query is read-only: for every directory
state and every value of the clock, running the query leaves the book
(its key-record mapping and hence every record's name, phones and
birthday) exactly as it was. -/
theorem claim_C9 (book : AddressBook) (today : Date) :
    (AddressBook.birthdays book today).2 = book := rfl

/-- C10: record construction performs no validation on the name: for
every string `s` (including the empty string) it succeeds, yields an
empty phone list and no birthday, and the directory key under which the
record is stored is exactly `s`. -/
theorem claim_C10 (s : String) (book : AddressBook) :
    (Record.init s).name = s ∧ (Record.init s).phones = [] ∧
    (Record.init s).birthday = none ∧
    AddressBook.find (AddressBook.add_record book (Record.init s)) s =
      some (Record.init s) := by
  refine ⟨rfl, rfl, rfl, ?_⟩
  exact find_dictSet_self book s (Record.init s)

/-- C5: `add_record` inserts or overwrites the entry keyed by the
record's name; adding two records with the same name leaves exactly the
book obtained by adding only the second one, so nothing of the first
record remains reachable. -/
theorem claim_C5 (book : AddressBook) (r1 r2 : Record) (h : r1.name = r2.name) :
    AddressBook.find (AddressBook.add_record (AddressBook.add_record book r1) r2) r2.name =
      some r2 ∧
    AddressBook.add_record (AddressBook.add_record book r1) r2 =
      AddressBook.add_record book r2 := by
  constructor
  · exact find_dictSet_self (AddressBook.add_record book r1) r2.name r2
  · unfold AddressBook.add_record
    rw [h]
    exact dictSet_dictSet book r2.name r1 r2

theorem claim_C5_witness :
    AddressBook.find
        (AddressBook.add_record
          (AddressBook.add_record []
            ⟨"A", ["1234567890"], some ⟨1990, 1, 1⟩⟩)
          (Record.init "A")) "A" = some (Record.init "A") ∧
    AddressBook.add_record
        (AddressBook.add_record [] ⟨"A", ["1234567890"], some ⟨1990, 1, 1⟩⟩)
        (Record.init "A") =
      AddressBook.add_record [] (Record.init "A") :=
  claim_C5 [] ⟨"A", ["1234567890"], some ⟨1990, 1, 1⟩⟩ (Record.init "A") rfl

/-- C4: atomicity on failure: whenever `add_phone`, `edit_phone` or
`add_birthday` signals an error, the record is left exactly as it was
before the call. -/
theorem claim_C4 (r : Record) (s old new : String) (e1 e2 e3 : Err) :
    ((r.add_phone s).1 = .error e1 → (r.add_phone s).2 = r) ∧
    ((r.edit_phone old new).1 = .error e2 → (r.edit_phone old new).2 = r) ∧
    ((r.add_birthday s).1 = .error e3 → (r.add_birthday s).2 = r) := by
  refine ⟨?_, ?_, ?_⟩ <;> intro h
  · unfold Record.add_phone at h ⊢
    cases hp : Phone.mk? s <;> simp [hp] at h ⊢
  · unfold Record.edit_phone at h ⊢
    cases hf : findFirst r.phones old with
    | none => simp [hf]
    | some i =>
      by_cases hv : Phone.validate new = true <;> simp [hf, hv] at h ⊢
  · unfold Record.add_birthday at h ⊢
    cases hp : Birthday.mk? s <;> simp [hp] at h ⊢

theorem claim_C4_witness :
    (Record.add_phone (Record.init "A") "123").2 = Record.init "A" :=
  (claim_C4 (Record.init "A") "123" "x" "y" .invalidFormat .notFound .invalidFormat).1 rfl

/-- C6: phone-number construction succeeds exactly on strings of exactly
10 decimal digits, storing the string unchanged, and fails with
`invalidFormat` on every other string. -/
theorem claim_C6 (p : String) :
    ((p.data.length = 10 ∧ ∀ c ∈ p.data, isDigitChar c = true) →
      Phone.mk? p = .ok p) ∧
    (¬(p.data.length = 10 ∧ ∀ c ∈ p.data, isDigitChar c = true) →
      Phone.mk? p = .error .invalidFormat) := by
  constructor <;> intro h <;> unfold Phone.mk?
  · rw [if_pos ((Phone.validate_iff p).mpr h)]
  · rw [if_neg]
    intro hv
    exact h ((Phone.validate_iff p).mp hv)

theorem claim_C6_witness :
    Phone.mk? "0123456789" = .ok "0123456789" :=
  (claim_C6 "0123456789").1 (by decide)

/-- C3: `edit_phone(old, new)` fails with `notFound` when `old` is not
among the stored phone values; otherwise fails with `invalidFormat` when
`new` is not a string of exactly 10 digits; otherwise overwrites the
first entry equal to `old` in place, preserving its position. -/
theorem claim_C3 (r : Record) (old new : String) :
    (old ∉ r.phones → r.edit_phone old new = (.error .notFound, r)) ∧
    (old ∈ r.phones → ¬(new.data.length = 10 ∧ ∀ c ∈ new.data, isDigitChar c = true) →
      r.edit_phone old new = (.error .invalidFormat, r)) ∧
    (old ∈ r.phones → (new.data.length = 10 ∧ ∀ c ∈ new.data, isDigitChar c = true) →
      ∃ i, ∃ h : i < r.phones.length,
        r.phones.get ⟨i, h⟩ = old ∧ old ∉ r.phones.take i ∧
        r.edit_phone old new = (.ok (), { r with phones := r.phones.set i new })) := by
  cases hf : findFirst r.phones old with
  | none =>
    have hmem : old ∉ r.phones := findFirst_eq_none.mp hf
    refine ⟨fun _ => ?_, fun hm => absurd hm hmem, fun hm => absurd hm hmem⟩
    unfold Record.edit_phone
    rw [hf]
  | some i =>
    obtain ⟨hlt, hget, _⟩ := findFirst_eq_some hf
    have hmem : old ∈ r.phones := hget ▸ List.get_mem r.phones i hlt
    refine ⟨fun hno => absurd hmem hno, fun _ hv => ?_, fun _ hv => ?_⟩
    · simp only [Record.edit_phone, hf]
      rw [if_neg]
      intro hval
      exact hv ((Phone.validate_iff new).mp hval)
    · obtain ⟨hlt, hget, htake⟩ := findFirst_eq_some hf
      refine ⟨i, hlt, hget, htake, ?_⟩
      simp only [Record.edit_phone, hf]
      rw [if_pos ((Phone.validate_iff new).mpr hv)]

theorem claim_C3_witness :
    Record.edit_phone ⟨"A", ["1234567890"], none⟩ "1234567890" "abc" =
      (.error .invalidFormat, ⟨"A", ["1234567890"], none⟩) :=
  (claim_C3 ⟨"A", ["1234567890"], none⟩ "1234567890" "abc").2.1 (by decide) (by decide)

/-! ## The birthday-window computation -/

theorem is_valid_date_eq (b start stop : Date)
    (h1 : validDate start.year b.month b.day = true)
    (h2 : dateLt ⟨start.year, b.month, b.day⟩ start = true → start.year ≠ stop.year →
      validDate stop.year b.month b.day = true) :
    is_valid_date b start stop =
      some (dateLe start (adjustBirthday b start stop) &&
        dateLe (adjustBirthday b start stop) stop) := by
  simp only [is_valid_date, adjustBirthday, replaceYear]
  rw [if_pos h1]
  simp only [Option.bind]
  by_cases hc :
      (dateLt ⟨start.year, b.month, b.day⟩ start && !(start.year == stop.year)) = true
  · have hca : dateLt ⟨start.year, b.month, b.day⟩ start = true ∧
        (!(start.year == stop.year)) = true := by
      simpa [Bool.and_eq_true] using hc
    have hne : start.year ≠ stop.year := by
      simpa using hca.2
    rw [if_pos hc, if_pos (h2 hca.1 hne), if_pos hc]
  · rw [if_neg hc, if_neg hc]

/-- C1: birthday-window membership: provided the birthday's replacement
into the relevant year succeeds (in particular the birthday is not a
February 29 landing in a non-leap year, which the spec leaves open),
`is_valid_date` over the window `[today, today + w days]` returns `true`
exactly when the adjusted date (the birthday reinterpreted in `today`'s
year, re-adjusted to the window end's year when it already passed and the
window crosses a year boundary) lies in the window; in particular with
`today = 2024-12-29` and a 7-day window, a birthday `03.01.1985` is
included. -/
theorem claim_C1 (b today : Date) (w : Nat)
    (h1 : validDate today.year b.month b.day = true)
    (h2 : dateLt ⟨today.year, b.month, b.day⟩ today = true →
      today.year ≠ (addDays today w).year →
      validDate (addDays today w).year b.month b.day = true) :
    (is_valid_date b today (addDays today w) = some true ↔
      (dateLe today (adjustBirthday b today (addDays today w)) = true ∧
        dateLe (adjustBirthday b today (addDays today w)) (addDays today w) = true)) ∧
    is_valid_date ⟨1985, 1, 3⟩ ⟨2024, 12, 29⟩ (addDays ⟨2024, 12, 29⟩ 7) = some true := by
  refine ⟨?_, by decide⟩
  rw [is_valid_date_eq b today (addDays today w) h1 h2]
  simp

theorem claim_C1_witness :
    is_valid_date ⟨1985, 1, 3⟩ ⟨2024, 12, 29⟩ (addDays ⟨2024, 12, 29⟩ 7) = some true :=
  (claim_C1 ⟨1985, 1, 3⟩ ⟨2024, 12, 29⟩ 7 (by decide) (by decide)).2

/-! ## Order facts about dates and stability of the sort -/

theorem dateLe_of_dateLt {a b : Date} (h : dateLt a b = true) : dateLe a b = true := by
  simp only [dateLt, dateLe, decide_eq_true_eq] at *
  omega

theorem dateLe_of_not_dateLt {a b : Date} (h : ¬ dateLt a b = true) : dateLe b a = true := by
  simp only [dateLt, dateLe, decide_eq_true_eq] at *
  omega

theorem dateLe_trans {a b c : Date} (h1 : dateLe a b = true) (h2 : dateLe b c = true) :
    dateLe a c = true := by
  simp only [dateLe, decide_eq_true_eq] at *
  omega

theorem dateLt_of_lt_of_le {a b c : Date} (h1 : dateLt a b = true) (h2 : dateLe b c = true) :
    dateLt a c = true := by
  simp only [dateLt, dateLe, decide_eq_true_eq] at *
  omega

theorem ne_of_dateLt {a b : Date} (h : dateLt a b = true) : b ≠ a := by
  intro he
  subst he
  simp only [dateLt, decide_eq_true_eq] at h
  omega

theorem mem_insertSorted {z x : String × Date} {l : List (String × Date)} :
    z ∈ insertSorted x l ↔ z = x ∨ z ∈ l := by
  induction l with
  | nil => simp [insertSorted]
  | cons y ys ih =>
    by_cases hc : dateLt x.2 y.2 = true
    · simp [insertSorted, hc]
    · simp [insertSorted, hc, ih]
      tauto

theorem pairwise_insertSorted (x : String × Date) (l : List (String × Date))
    (h : l.Pairwise (fun a b => dateLe a.2 b.2 = true)) :
    (insertSorted x l).Pairwise (fun a b => dateLe a.2 b.2 = true) := by
  induction l with
  | nil => simp [insertSorted]
  | cons y ys ih =>
    rw [List.pairwise_cons] at h
    obtain ⟨hy, hys⟩ := h
    by_cases hc : dateLt x.2 y.2 = true
    · rw [insertSorted, if_pos hc, List.pairwise_cons]
      refine ⟨?_, List.Pairwise.cons hy hys⟩
      intro z hz
      rcases List.mem_cons.mp hz with hz | hz
      · subst hz
        exact dateLe_of_dateLt hc
      · exact dateLe_trans (dateLe_of_dateLt hc) (hy z hz)
    · rw [insertSorted, if_neg hc, List.pairwise_cons]
      refine ⟨?_, ih hys⟩
      intro z hz
      rcases mem_insertSorted.mp hz with hz | hz
      · subst hz
        exact dateLe_of_not_dateLt hc
      · exact hy z hz

theorem filter_insertSorted (x : String × Date) (l : List (String × Date)) (v : Date)
    (h : l.Pairwise (fun a b => dateLe a.2 b.2 = true)) :
    (insertSorted x l).filter (fun z => decide (z.2 = v)) =
      l.filter (fun z => decide (z.2 = v)) ++ (if x.2 = v then [x] else []) := by
  induction l with
  | nil => by_cases hx : x.2 = v <;> simp [insertSorted, List.filter, hx]
  | cons y ys ih =>
    rw [List.pairwise_cons] at h
    obtain ⟨hy, hys⟩ := h
    by_cases hc : dateLt x.2 y.2 = true
    · rw [insertSorted, if_pos hc]
      by_cases hx : x.2 = v
      · have hempty : (y :: ys).filter (fun z => decide (z.2 = v)) = [] := by
          rw [List.filter_eq_nil_iff]
          intro z hz
          have hzle : dateLe y.2 z.2 = true := by
            rcases List.mem_cons.mp hz with hz | hz
            · subst hz
              simp [dateLe]
            · exact hy z hz
          have : dateLt x.2 z.2 = true := dateLt_of_lt_of_le hc hzle
          have hne : z.2 ≠ x.2 := ne_of_dateLt this
          simp [hx ▸ hne]
        rw [List.filter_cons_of_pos (by simpa using hx), hempty]
        simp [hx]
      · rw [List.filter_cons_of_neg (by simpa using hx)]
        simp [hx]
    · rw [insertSorted, if_neg hc]
      by_cases hyv : y.2 = v
      · rw [List.filter_cons_of_pos (by simpa using hyv),
          List.filter_cons_of_pos (by simpa using hyv), ih hys, List.cons_append]
      · rw [List.filter_cons_of_neg (by simpa using hyv),
          List.filter_cons_of_neg (by simpa using hyv), ih hys]

theorem foldl_insertSorted (m : List (String × Date)) :
    ∀ acc : List (String × Date),
      acc.Pairwise (fun a b => dateLe a.2 b.2 = true) →
      (m.foldl (fun a x => insertSorted x a) acc).Pairwise
          (fun a b => dateLe a.2 b.2 = true) ∧
      ∀ v : Date,
        (m.foldl (fun a x => insertSorted x a) acc).filter (fun z => decide (z.2 = v)) =
          acc.filter (fun z => decide (z.2 = v)) ++
            m.filter (fun z => decide (z.2 = v)) := by
  induction m with
  | nil => intro acc hacc; simpa using hacc
  | cons x xs ih =>
    intro acc hacc
    obtain ⟨ha, hb⟩ := ih (insertSorted x acc) (pairwise_insertSorted x acc hacc)
    refine ⟨by simpa using ha, ?_⟩
    intro v
    rw [List.foldl_cons, hb v, filter_insertSorted x acc v hacc]
    by_cases hx : x.2 = v
    · rw [List.filter_cons_of_pos (by simpa using hx)]
      simp [hx]
    · rw [List.filter_cons_of_neg (by simpa using hx)]
      simp [hx]

theorem sortByDate_pairwise (m : List (String × Date)) :
    (sortByDate m).Pairwise (fun a b => dateLe a.2 b.2 = true) :=
  (foldl_insertSorted m [] (by simp)).1

theorem sortByDate_filter (m : List (String × Date)) (v : Date) :
    (sortByDate m).filter (fun z => decide (z.2 = v)) =
      m.filter (fun z => decide (z.2 = v)) := by
  simpa using (foldl_insertSorted m [] (by simp)).2 v

/-- C2 counterexample: with `today = 2024-12-29`, a record "Alice" with
birthday 1980-01-03 and a record "Bob" with birthday 1990-12-30 are both
in the 7-day window, but the query returns Alice first although her
adjusted date (2025-01-03) is strictly after Bob's (2024-12-30): the
output is ordered by the stored birthday date, not by the adjusted one. -/
theorem claim_C2_counterexample :
    (AddressBook.birthdays
        [("Alice", ⟨"Alice", [], some ⟨1980, 1, 3⟩⟩),
         ("Bob", ⟨"Bob", [], some ⟨1990, 12, 30⟩⟩)]
        ⟨2024, 12, 29⟩).1 =
      some [("Alice", ⟨1980, 1, 3⟩), ("Bob", ⟨1990, 12, 30⟩)] ∧
    dateLt (adjustBirthday ⟨1990, 12, 30⟩ ⟨2024, 12, 29⟩ (addDays ⟨2024, 12, 29⟩ 7))
        (adjustBirthday ⟨1980, 1, 3⟩ ⟨2024, 12, 29⟩ (addDays ⟨2024, 12, 29⟩ 7)) =
      true := by
  constructor
  · rfl
  · decide

/-- C2 (amended): the sequence returned by the upcoming-birthdays query
is ordered ascending by the stored birthday date (the original date,
original year included — not the adjusted date), with ties broken by
insertion order: the entries with any fixed date value appear in the
same order as in the unsorted scan of the book. -/
theorem claim_C2_amended (book : AddressBook) (today : Date)
    (l m : List (String × Date))
    (hl : (AddressBook.birthdays book today).1 = some l)
    (hm : AddressBook.collect book today (addDays today 7) = some m) :
    l.Pairwise (fun a b => dateLe a.2 b.2 = true) ∧
    ∀ v : Date, l.filter (fun z => decide (z.2 = v)) =
      m.filter (fun z => decide (z.2 = v)) := by
  have hlm : l = sortByDate m := by
    rw [AddressBook.birthdays] at hl
    simp only [hm, Option.map_some'] at hl
    exact (Option.some.injEq _ _ ▸ hl).symm
  subst hlm
  exact ⟨sortByDate_pairwise m, fun v => sortByDate_filter m v⟩

theorem claim_C2_witness :
    ([("Alice", (⟨1990, 12, 30⟩ : Date)), ("Bob", ⟨1990, 12, 30⟩)] :
        List (String × Date)).filter (fun z => decide (z.2 = ⟨1990, 12, 30⟩)) =
      [("Alice", (⟨1990, 12, 30⟩ : Date)), ("Bob", ⟨1990, 12, 30⟩)].filter
        (fun z => decide (z.2 = ⟨1990, 12, 30⟩)) :=
  (claim_C2_amended
    [("Alice", ⟨"Alice", [], some ⟨1990, 12, 30⟩⟩),
     ("Bob", ⟨"Bob", [], some ⟨1990, 12, 30⟩⟩)]
    ⟨2024, 12, 29⟩
    [("Alice", ⟨1990, 12, 30⟩), ("Bob", ⟨1990, 12, 30⟩)]
    [("Alice", ⟨1990, 12, 30⟩), ("Bob", ⟨1990, 12, 30⟩)]
    rfl rfl).2 ⟨1990, 12, 30⟩

/-! ## Lemmas about splitting and digits -/

theorem splitDots_ne_nil (cs : List Char) : splitDots cs ≠ [] := by
  induction cs with
  | nil => simp [splitDots]
  | cons c cs ih =>
    by_cases h : c = '.'
    · simp [splitDots, h]
    · cases hs : splitDots cs with
      | nil => exact absurd hs ih
      | cons p ps => simp [splitDots, h, hs]

theorem joinDots_cons_cons (p : List Char) (q : List Char) (ps : List (List Char)) :
    joinDots (p :: q :: ps) = p ++ '.' :: joinDots (q :: ps) := by
  rfl

theorem joinDots_splitDots (cs : List Char) : joinDots (splitDots cs) = cs := by
  induction cs with
  | nil => rfl
  | cons c cs ih =>
    by_cases h : c = '.'
    · subst h
      rw [splitDots, if_pos rfl]
      cases hs : splitDots cs with
      | nil => exact absurd hs (splitDots_ne_nil cs)
      | cons p ps =>
        rw [hs] at ih
        rw [joinDots_cons_cons, ih]
        rfl
    · rw [splitDots, if_neg h]
      cases hs : splitDots cs with
      | nil => exact absurd hs (splitDots_ne_nil cs)
      | cons p ps =>
        rw [hs] at ih
        cases ps with
        | nil =>
          simpa [joinDots] using congrArg (c :: ·) ih
        | cons q qs =>
          rw [joinDots_cons_cons] at ih
          rw [joinDots_cons_cons]
          simpa [List.cons_append] using congrArg (c :: ·) ih

theorem splitDots_parts_no_dot (cs : List Char) :
    ∀ p ∈ splitDots cs, '.' ∉ p := by
  induction cs with
  | nil => simp [splitDots]
  | cons c cs ih =>
    by_cases h : c = '.'
    · subst h
      rw [splitDots, if_pos rfl]
      intro p hp
      rcases List.mem_cons.mp hp with hp | hp
      · subst hp; simp
      · exact ih p hp
    · rw [splitDots, if_neg h]
      cases hs : splitDots cs with
      | nil => exact absurd hs (splitDots_ne_nil cs)
      | cons q qs =>
        intro p hp
        rcases List.mem_cons.mp hp with hp | hp
        · subst hp
          intro hd
          rcases List.mem_cons.mp hd with hd | hd
          · exact h hd.symm
          · exact ih q (hs ▸ List.mem_cons_self q qs) hd
        · exact ih p (hs ▸ List.mem_cons_of_mem q hp)

theorem splitDots_append (a r : List Char) (ha : '.' ∉ a) :
    splitDots (a ++ '.' :: r) = a :: splitDots r := by
  induction a with
  | nil => simp [splitDots]
  | cons c a ih =>
    have hc : c ≠ '.' := fun h => ha (h ▸ List.mem_cons_self c a)
    have ha' : '.' ∉ a := fun h => ha (List.mem_cons_of_mem c h)
    rw [List.cons_append, splitDots, if_neg hc, ih ha']

theorem splitDots_no_dot (a : List Char) (ha : '.' ∉ a) :
    splitDots a = [a] := by
  induction a with
  | nil => rfl
  | cons c a ih =>
    have hc : c ≠ '.' := fun h => ha (h ▸ List.mem_cons_self c a)
    have ha' : '.' ∉ a := fun h => ha (List.mem_cons_of_mem c h)
    rw [splitDots, if_neg hc, ih ha']

theorem isDigitChar_ne_dot {c : Char} (h : isDigitChar c = true) : c ≠ '.' := by
  intro he
  subst he
  simp [isDigitChar] at h

theorem no_dot_of_all_digits {l : List Char} (h : ∀ c ∈ l, isDigitChar c = true) :
    '.' ∉ l := by
  intro hd
  exact absurd rfl (isDigitChar_ne_dot (h '.' hd))

theorem daysInMonth_le_31 (y m : Nat) : daysInMonth y m ≤ 31 := by
  rw [daysInMonth]
  split
  · split <;> omega
  · split <;> omega

/-! ## The accepted date strings -/

theorem parseDMY_eq_of_split {cs : List Char} {ds ms ys : List Char}
    (hs : splitDots cs = [ds, ms, ys]) :
    parseDMY cs =
      if (1 ≤ ds.length ∧ ds.length ≤ 2) ∧ ds.all isDigitChar = true
          ∧ 1 ≤ digitsVal ds ∧ digitsVal ds ≤ 31
          ∧ (1 ≤ ms.length ∧ ms.length ≤ 2) ∧ ms.all isDigitChar = true
          ∧ 1 ≤ digitsVal ms ∧ digitsVal ms ≤ 12
          ∧ ys.length = 4 ∧ ys.all isDigitChar = true
          ∧ validDate (digitsVal ys) (digitsVal ms) (digitsVal ds) = true
      then some ⟨digitsVal ys, digitsVal ms, digitsVal ds⟩
      else none := by
  unfold parseDMY
  rw [hs]


theorem parseDMY_isSome_iff (cs : List Char) :
    (parseDMY cs).isSome = true ↔
      ∃ ds ms ys : List Char,
        cs = ds ++ '.' :: (ms ++ '.' :: ys) ∧
        (1 ≤ ds.length ∧ ds.length ≤ 2) ∧ (∀ c ∈ ds, isDigitChar c = true) ∧
        (1 ≤ ms.length ∧ ms.length ≤ 2) ∧ (∀ c ∈ ms, isDigitChar c = true) ∧
        ys.length = 4 ∧ (∀ c ∈ ys, isDigitChar c = true) ∧
        validDate (digitsVal ys) (digitsVal ms) (digitsVal ds) = true := by
  constructor
  · intro h
    rcases hs : splitDots cs with _ | ⟨ds, _ | ⟨ms, _ | ⟨ys, _ | _⟩⟩⟩
    · rw [parseDMY, hs] at h
      simp at h
    · rw [parseDMY, hs] at h
      simp at h
    · rw [parseDMY, hs] at h
      simp at h
    case cons.cons.cons.nil =>
      rw [parseDMY_eq_of_split hs] at h
      by_cases hc : (1 ≤ ds.length ∧ ds.length ≤ 2) ∧ ds.all isDigitChar = true
          ∧ 1 ≤ digitsVal ds ∧ digitsVal ds ≤ 31
          ∧ (1 ≤ ms.length ∧ ms.length ≤ 2) ∧ ms.all isDigitChar = true
          ∧ 1 ≤ digitsVal ms ∧ digitsVal ms ≤ 12
          ∧ ys.length = 4 ∧ ys.all isDigitChar = true
          ∧ validDate (digitsVal ys) (digitsVal ms) (digitsVal ds) = true
      · obtain ⟨hd, hdall, _, _, hm, hmall, _, _, hy, hyall, hv⟩ := hc
        refine ⟨ds, ms, ys, ?_, hd, ?_, hm, ?_, hy, ?_, hv⟩
        · conv_lhs => rw [← joinDots_splitDots cs, hs]
          rfl
        · exact fun c hcm => List.all_eq_true.mp hdall c hcm
        · exact fun c hcm => List.all_eq_true.mp hmall c hcm
        · exact fun c hcm => List.all_eq_true.mp hyall c hcm
      · rw [if_neg hc] at h
        simp at h
    · rw [parseDMY, hs] at h
      simp at h
  · rintro ⟨ds, ms, ys, hcs, hd, hdall, hm, hmall, hy, hyall, hv⟩
    have hdd : '.' ∉ ds := no_dot_of_all_digits hdall
    have hmd : '.' ∉ ms := no_dot_of_all_digits hmall
    have hyd : '.' ∉ ys := no_dot_of_all_digits hyall
    have hs : splitDots cs = [ds, ms, ys] := by
      rw [hcs, splitDots_append ds _ hdd, splitDots_append ms _ hmd,
        splitDots_no_dot ys hyd]
    have hvp : 1 ≤ digitsVal ds ∧ digitsVal ds ≤ 31 ∧ 1 ≤ digitsVal ms ∧
        digitsVal ms ≤ 12 := by
      have h31 := daysInMonth_le_31 (digitsVal ys) (digitsVal ms)
      simp only [validDate, decide_eq_true_eq] at hv
      omega
    rw [parseDMY_eq_of_split hs, if_pos]
    · rfl
    · exact ⟨hd, List.all_eq_true.mpr hdall, hvp.1, hvp.2.1, hm,
        List.all_eq_true.mpr hmall, hvp.2.2.1, hvp.2.2.2, hy,
        List.all_eq_true.mpr hyall, hv⟩

theorem Birthday_mk_toOption (s : String) :
    (Birthday.mk? s).toOption = parseDMY s.data := by
  cases hp : parseDMY s.data <;> simp [Birthday.mk?, hp, Except.toOption]

theorem Birthday_mk_error_iff (s : String) :
    Birthday.mk? s = .error .invalidFormat ↔ parseDMY s.data = none := by
  cases hp : parseDMY s.data <;> simp [Birthday.mk?, hp]

/-- C7 counterexample: the string `"3.01.1985"` is not written with a
two-digit day, yet `Birthday` construction accepts it (Python's
`strptime` `%d` matches one- or two-digit days), so construction does
not accept exactly the two-digit/two-digit/four-digit format strings. -/
theorem claim_C7_counterexample :
    Birthday.mk? "3.01.1985" = .ok ⟨1985, 1, 3⟩ ∧
    specDateFormat "3.01.1985" = false := by
  exact ⟨rfl, rfl⟩

/-- C7 (amended): `Birthday` construction accepts exactly the valid
calendar dates written as day.month.year with a one- or two-digit day, a
one- or two-digit month and an exactly four-digit year; every other
string fails with `invalidFormat`. -/
theorem claim_C7_amended (s : String) :
    (looseDateFormat s ↔ (Birthday.mk? s).toOption.isSome = true) ∧
    (¬ looseDateFormat s ↔ Birthday.mk? s = .error .invalidFormat) := by
  have h1 : looseDateFormat s ↔ (Birthday.mk? s).toOption.isSome = true := by
    rw [Birthday_mk_toOption, parseDMY_isSome_iff]
    exact Iff.rfl
  refine ⟨h1, ?_⟩
  rw [Birthday_mk_error_iff]
  rw [h1, Birthday_mk_toOption]
  cases hp : parseDMY s.data <;> simp

theorem claim_C7_witness :
    (Birthday.mk? "05.03.1990").toOption.isSome = true :=
  (claim_C7_amended "05.03.1990").1.mp
    ⟨['0', '5'], ['0', '3'], ['1', '9', '9', '0'], by decide⟩

/-! ## Round trip of parsing and formatting -/

theorem digitChar_inv {c : Char} (h : isDigitChar c = true) :
    Nat.digitChar (c.toNat - 48) = c := by
  have hb : 48 ≤ c.toNat ∧ c.toNat ≤ 57 := by simpa [isDigitChar] using h
  obtain ⟨h1, h2⟩ := hb
  rw [← Char.ofNat_toNat c]
  generalize hg : c.toNat = n
  rw [hg] at h1 h2
  interval_cases n <;> rfl

theorem pad2_digitsVal {c1 c0 : Char} (h1 : isDigitChar c1 = true)
    (h0 : isDigitChar c0 = true) :
    pad2 (digitsVal [c1, c0]) = [c1, c0] := by
  have b1 : 48 ≤ c1.toNat ∧ c1.toNat ≤ 57 := by simpa [isDigitChar] using h1
  have b0 : 48 ≤ c0.toNat ∧ c0.toNat ≤ 57 := by simpa [isDigitChar] using h0
  have hv : digitsVal [c1, c0] = 10 * (c1.toNat - 48) + (c0.toNat - 48) := by
    simp [digitsVal]
  rw [hv, pad2]
  have e1 : (10 * (c1.toNat - 48) + (c0.toNat - 48)) / 10 % 10 = c1.toNat - 48 := by
    omega
  have e0 : (10 * (c1.toNat - 48) + (c0.toNat - 48)) % 10 = c0.toNat - 48 := by
    omega
  rw [e1, e0, digitChar_inv h1, digitChar_inv h0]

theorem pad4_digitsVal {c3 c2 c1 c0 : Char} (h3 : isDigitChar c3 = true)
    (h2 : isDigitChar c2 = true) (h1 : isDigitChar c1 = true)
    (h0 : isDigitChar c0 = true) :
    pad4 (digitsVal [c3, c2, c1, c0]) = [c3, c2, c1, c0] := by
  have b3 : 48 ≤ c3.toNat ∧ c3.toNat ≤ 57 := by simpa [isDigitChar] using h3
  have b2 : 48 ≤ c2.toNat ∧ c2.toNat ≤ 57 := by simpa [isDigitChar] using h2
  have b1 : 48 ≤ c1.toNat ∧ c1.toNat ≤ 57 := by simpa [isDigitChar] using h1
  have b0 : 48 ≤ c0.toNat ∧ c0.toNat ≤ 57 := by simpa [isDigitChar] using h0
  have hv : digitsVal [c3, c2, c1, c0] =
      1000 * (c3.toNat - 48) + 100 * (c2.toNat - 48) +
        10 * (c1.toNat - 48) + (c0.toNat - 48) := by
    simp [digitsVal]
    omega
  rw [hv, pad4]
  have e3 : (1000 * (c3.toNat - 48) + 100 * (c2.toNat - 48) +
      10 * (c1.toNat - 48) + (c0.toNat - 48)) / 1000 % 10 = c3.toNat - 48 := by
    omega
  have e2 : (1000 * (c3.toNat - 48) + 100 * (c2.toNat - 48) +
      10 * (c1.toNat - 48) + (c0.toNat - 48)) / 100 % 10 = c2.toNat - 48 := by
    omega
  have e1 : (1000 * (c3.toNat - 48) + 100 * (c2.toNat - 48) +
      10 * (c1.toNat - 48) + (c0.toNat - 48)) / 10 % 10 = c1.toNat - 48 := by
    omega
  have e0 : (1000 * (c3.toNat - 48) + 100 * (c2.toNat - 48) +
      10 * (c1.toNat - 48) + (c0.toNat - 48)) % 10 = c0.toNat - 48 := by
    omega
  rw [e3, e2, e1, e0, digitChar_inv h3, digitChar_inv h2, digitChar_inv h1,
    digitChar_inv h0]

theorem padY_eq_pad4 {n : Nat} (h : 1000 ≤ n) : padY n = pad4 n := by
  rw [padY, if_neg (by omega), if_neg (by omega), if_neg (by omega)]

/-- C8 counterexample: the string `"01.01.0999"` is a valid calendar
date written as dd.mm.yyyy; parsing accepts it, but re-formatting
prints the year without its leading zero (`strftime` `%Y` does not
zero-pad years below 1000), so the round trip returns `"01.01.999"`,
not the original string. -/
theorem claim_C8_counterexample :
    specDateFormat "01.01.0999" = true ∧
    (Birthday.mk? "01.01.0999").map formatDMY = .ok "01.01.999" ∧
    (Birthday.mk? "01.01.0999").map formatDMY ≠ .ok "01.01.0999" := by
  refine ⟨rfl, rfl, ?_⟩
  intro h
  exact absurd (Except.ok.inj h) (by decide)

/-- C8 (amended): for every string that is a valid calendar date written
as `dd.mm.yyyy` (two-digit day and month, four-digit year) whose year is
at least 1000, parsing it as a `Birthday` and re-formatting the stored
date with `strftime("%d.%m.%Y")` yields the original string unchanged
(for years below 1000 the re-formatted year loses its leading zeros). -/
theorem claim_C8_amended (s : String) (h : specDateFormat s = true) (d : Date)
    (hd : Birthday.mk? s = .ok d) (hy : 1000 ≤ d.year) :
    formatDMY d = s := by
  obtain ⟨cs⟩ := s
  rw [specDateFormat] at h
  split at h
  case h_2 => simp at h
  case h_1 d1 d0 p m1 m0 q y3 y2 y1 y0 heq =>
    simp only [Bool.and_eq_true, decide_eq_true_eq, List.all_eq_true] at h
    obtain ⟨⟨⟨hp, hq⟩, hall⟩, hv⟩ := h
    subst hp
    subst hq
    have hd1 : isDigitChar d1 = true := hall d1 (by simp)
    have hd0 : isDigitChar d0 = true := hall d0 (by simp)
    have hm1 : isDigitChar m1 = true := hall m1 (by simp)
    have hm0 : isDigitChar m0 = true := hall m0 (by simp)
    have hy3 : isDigitChar y3 = true := hall y3 (by simp)
    have hy2 : isDigitChar y2 = true := hall y2 (by simp)
    have hy1 : isDigitChar y1 = true := hall y1 (by simp)
    have hy0 : isDigitChar y0 = true := hall y0 (by simp)
    have hdall : ∀ c ∈ [d1, d0], isDigitChar c = true := by
      intro c hc
      rcases List.mem_cons.mp hc with rfl | hc
      · exact hd1
      · rcases List.mem_cons.mp hc with rfl | hc
        · exact hd0
        · simp at hc
    have hmall : ∀ c ∈ [m1, m0], isDigitChar c = true := by
      intro c hc
      rcases List.mem_cons.mp hc with rfl | hc
      · exact hm1
      · rcases List.mem_cons.mp hc with rfl | hc
        · exact hm0
        · simp at hc
    have hyall : ∀ c ∈ [y3, y2, y1, y0], isDigitChar c = true := by
      intro c hc
      simp only [List.mem_cons, List.not_mem_nil, or_false] at hc
      rcases hc with rfl | rfl | rfl | rfl
      · exact hy3
      · exact hy2
      · exact hy1
      · exact hy0
    have hsplit : splitDots (String.mk cs).data = [[d1, d0], [m1, m0], [y3, y2, y1, y0]] := by
      have hcs : (String.mk cs).data = [d1, d0] ++ '.' :: ([m1, m0] ++ '.' :: [y3, y2, y1, y0]) := heq
      rw [hcs, splitDots_append _ _ (no_dot_of_all_digits hdall),
        splitDots_append _ _ (no_dot_of_all_digits hmall),
        splitDots_no_dot _ (no_dot_of_all_digits hyall)]
    have hvp : 1 ≤ digitsVal [d1, d0] ∧ digitsVal [d1, d0] ≤ 31 ∧
        1 ≤ digitsVal [m1, m0] ∧ digitsVal [m1, m0] ≤ 12 := by
      have h31 := daysInMonth_le_31 (digitsVal [y3, y2, y1, y0]) (digitsVal [m1, m0])
      simp only [validDate, decide_eq_true_eq] at hv
      omega
    have hparse : parseDMY (String.mk cs).data =
        some ⟨digitsVal [y3, y2, y1, y0], digitsVal [m1, m0], digitsVal [d1, d0]⟩ := by
      rw [parseDMY_eq_of_split hsplit, if_pos]
      exact ⟨by simp, List.all_eq_true.mpr hdall, hvp.1, hvp.2.1, by simp,
        List.all_eq_true.mpr hmall, hvp.2.2.1, hvp.2.2.2, by simp,
        List.all_eq_true.mpr hyall, hv⟩
    have hmk : Birthday.mk? (String.mk cs) =
        .ok ⟨digitsVal [y3, y2, y1, y0], digitsVal [m1, m0], digitsVal [d1, d0]⟩ := by
      rw [Birthday.mk?, hparse]
    rw [hmk] at hd
    have hdval : d =
        ⟨digitsVal [y3, y2, y1, y0], digitsVal [m1, m0], digitsVal [d1, d0]⟩ :=
      (Except.ok.inj hd).symm
    subst hdval
    have hy1000 : 1000 ≤ digitsVal [y3, y2, y1, y0] := hy
    have hfmt : formatDMY
        ⟨digitsVal [y3, y2, y1, y0], digitsVal [m1, m0], digitsVal [d1, d0]⟩ =
        String.mk [d1, d0, '.', m1, m0, '.', y3, y2, y1, y0] := by
      rw [formatDMY]
      rw [padY_eq_pad4 hy1000]
      rw [pad2_digitsVal hd1 hd0, pad2_digitsVal hm1 hm0,
        pad4_digitsVal hy3 hy2 hy1 hy0]
      rfl
    rw [hfmt, ← heq]

theorem claim_C8_witness :
    formatDMY ⟨1985, 1, 3⟩ = "03.01.1985" :=
  claim_C8_amended "03.01.1985" rfl ⟨1985, 1, 3⟩ rfl (by decide)
